import Mathlib

/-!
Shallow embedding of the CSV ingestion and field-mapping pipeline of the
CampaignCentral repository (server/routes.ts, client/src/lib/auth.ts,
shared schema, server storage), together with theorems settling the
specification claims about it.

Strings are manipulated through explicit character-list operations that
mirror the JavaScript string primitives used by the source
(`String.prototype.split`, `trim`, `toLowerCase`, `includes`,
`replace(/"/g,'')`), so that every definition is executable by the kernel.
-/

/-- JS `s.split(sep)` for a one-character separator, on character lists.
`splitChar c [] = [[]]` mirrors `"".split(c) === [""]`. -/
def splitChar (sep : Char) : List Char → List (List Char)
  | [] => [[]]
  | c :: cs =>
    if c = sep then
      [] :: splitChar sep cs
    else
      match splitChar sep cs with
      | [] => [[c]]
      | r :: rs => (c :: r) :: rs

/-- Characters removed by JS `trim` at either end (modelled by `Char.isWhitespace`). -/
def trimChars (l : List Char) : List Char :=
  ((l.dropWhile Char.isWhitespace).reverse.dropWhile Char.isWhitespace).reverse

/-- Does the second list start with the first one? -/
def strStarts : List Char → List Char → Bool
  | [], _ => true
  | _ :: _, [] => false
  | p :: ps, c :: cs => p == c && strStarts ps cs

/-- JS `s.includes(pat)`: `pat` occurs contiguously inside `s`. -/
def strHas (pat : List Char) : List Char → Bool
  | [] => pat.isEmpty
  | c :: cs => strStarts pat (c :: cs) || strHas pat cs

/-- JS `s.split(sep)` lifted to `String`. -/
def jsSplit (sep : Char) (s : String) : List String :=
  (splitChar sep s.data).map (fun l => ⟨l⟩)

/-- JS `s.trim()`. -/
def jsTrim (s : String) : String := ⟨trimChars s.data⟩

/-- JS `s.toLowerCase()` (ASCII case mapping, which covers every header the
source's pattern table can match). -/
def jsToLower (s : String) : String := ⟨s.data.map Char.toLower⟩

/-- JS `s.includes(pat)`. -/
def jsIncludes (s pat : String) : Bool := strHas pat.data s.data

/-- JS `s.replace(/"/g, '')`: delete every double-quote character. -/
def removeQuotes (s : String) : String := ⟨s.data.filter (fun c => c ≠ '"')⟩

/-- The closed set of 11 standard contact fields (`fieldMappingSchema` keys in
the shared schema, also the keys of `fieldPatterns` in `detectFields`). -/
inductive StandardField where
  | firstName | lastName | title | company | email
  | mobilePhone | otherPhone | corporatePhone
  | personLinkedinUrl | companyLinkedinUrl | website
  deriving DecidableEq, Repr

/-- The 11 standard fields in the declaration order of `fieldPatterns`. -/
def standardFields : List StandardField :=
  [.firstName, .lastName, .title, .company, .email, .mobilePhone,
   .otherPhone, .corporatePhone, .personLinkedinUrl, .companyLinkedinUrl, .website]

/-- The JSON key of each standard field, as in `fieldMappingSchema`. -/
def fieldKey : StandardField → String
  | .firstName => "firstName"
  | .lastName => "lastName"
  | .title => "title"
  | .company => "company"
  | .email => "email"
  | .mobilePhone => "mobilePhone"
  | .otherPhone => "otherPhone"
  | .corporatePhone => "corporatePhone"
  | .personLinkedinUrl => "personLinkedinUrl"
  | .companyLinkedinUrl => "companyLinkedinUrl"
  | .website => "website"

/-- The 11 standard-field keys accepted by `fieldMappingSchema`. -/
def standardKeys : List String := standardFields.map fieldKey

/-- The `fieldPatterns` table of `detectFields` (server/routes.ts lines 81-93,
identical in client `detectCSVFields`). -/
def fieldPatterns : StandardField → List String
  | .firstName => ["first name", "firstname", "fname", "first_name"]
  | .lastName => ["last name", "lastname", "lname", "last_name"]
  | .title => ["title", "job title", "position", "role", "job_title"]
  | .company => ["company", "organization", "employer", "company_name"]
  | .email => ["email", "email address", "e-mail", "email_address"]
  | .mobilePhone => ["mobile", "mobile phone", "cell", "cell phone", "mobile_phone"]
  | .otherPhone => ["phone", "other phone", "telephone", "other_phone"]
  | .corporatePhone => ["corporate phone", "work phone", "office phone", "corporate_phone"]
  | .personLinkedinUrl => ["linkedin", "person linkedin", "personal linkedin", "person_linkedin_url"]
  | .companyLinkedinUrl => ["company linkedin", "company_linkedin_url"]
  | .website => ["website", "url", "web", "site"]

/-- One header matches one standard field when some pattern of the field is a
substring of the lower-cased, trimmed header
(`patterns.some(pattern => normalizedHeader.includes(pattern))`). -/
def fieldMatches (f : StandardField) (header : String) : Bool :=
  (fieldPatterns f).any (fun p => jsIncludes (jsTrim (jsToLower header)) p)

/-- `detectFields(headers)` of server/routes.ts: scan the headers in order and,
for every standard field a header matches, overwrite the field's assignment
with that header.  A partial mapping is a function into `Option String`
(`none` = key absent from the JS object). -/
def detectFields (headers : List String) : StandardField → Option String :=
  headers.foldl
    (fun m header f => if fieldMatches f header then some header else m f)
    (fun _ => none)

/-- A parsed CSV table: ordered headers plus rows, each row an association list
from column name to raw cell value (the JS row object). -/
structure ParsedTable where
  headers : List String
  rows : List (List (String × String))
  deriving DecidableEq, Repr

/-- `parseCSVFile` of client/src/lib/auth.ts: split on newlines, drop
whitespace-only lines, reject when none remain, take the first line as the
header row, and build each row by `row[header] = values[index] || ''`. -/
def parseCSVFile (csv : String) : Except String ParsedTable :=
  let lines := (jsSplit '\n' csv).filter (fun l => jsTrim l ≠ "")
  match lines with
  | [] => .error "CSV file is empty"
  | first :: rest =>
    let headers := (jsSplit ',' first).map (fun h => removeQuotes (jsTrim h))
    let rows := rest.map (fun line =>
      let values := (jsSplit ',' line).map (fun v => removeQuotes (jsTrim v))
      headers.enum.map (fun p => (p.2, values.getD p.1 "")))
    .ok { headers := headers, rows := rows }

/-- `fieldMappingSchema.parse` (zod) applied to a string-valued JSON object,
modelled as an association list: each of the 11 optional standard-field keys
is read off verbatim, every other key is stripped, and no value is rejected. -/
def fieldMappingParse (kvs : List (String × String)) : StandardField → Option String :=
  fun f => kvs.lookup (fieldKey f)

/-- The row-to-record transform of the import route (routes.ts lines 289-293):
`if (csvColumn && csvColumn !== 'skip' && row[csvColumn])
   contactData[standardField] = row[csvColumn]`.
A field is `none` (absent, stored as NULL) unless its mapped column is a
non-empty, non-skip name and the row holds a non-empty string there. -/
def transformRow (fm : StandardField → Option String)
    (row : List (String × String)) : StandardField → Option String :=
  fun f =>
    match fm f with
    | none => none
    | some c =>
      if c ≠ "" ∧ c ≠ "skip" then
        match row.lookup c with
        | some v => if v ≠ "" then some v else none
        | none => none
      else none

/-- The populated entries of a transformed record, in standard-field order
(the JS object built by the transform). -/
def recordEntries (fm : StandardField → Option String)
    (row : List (String × String)) : List (StandardField × String) :=
  standardFields.filterMap (fun f => (transformRow fm row f).map (fun v => (f, v)))

/-- The entries of a validated field mapping, used as the campaign's stored
`fieldMapping` value. -/
def mappingEntries (fm : StandardField → Option String) : List (StandardField × String) :=
  standardFields.filterMap (fun f => (fm f).map (fun v => (f, v)))

/-- A stored campaign row (shared schema `campaigns`). -/
structure Campaign where
  id : Nat
  name : String
  fileName : String
  recordCount : Nat
  fileSize : Nat
  fieldMapping : List (StandardField × String)
  deriving DecidableEq, Repr

/-- A stored contact row: owning campaign, the mapped standard fields, and the
opaque encrypted blob of the mapped record. -/
structure Contact where
  campaignId : Nat
  fields : List (StandardField × String)
  encryptedData : String
  deriving DecidableEq, Repr

/-- The external store (`DatabaseStorage`): campaign rows, contact rows, and a
log of the batches passed to `createContacts`, in call order. -/
structure Store where
  campaigns : List Campaign
  contacts : List Contact
  insertCalls : List (List Contact)
  deriving DecidableEq, Repr

/-- `DatabaseStorage.createCampaign`: insert the row, assigning a fresh id. -/
def createCampaign (s : Store) (name fileName : String) (recordCount fileSize : Nat)
    (fieldMapping : List (StandardField × String)) : Campaign × Store :=
  let c : Campaign :=
    { id := s.campaigns.length + 1, name := name, fileName := fileName,
      recordCount := recordCount, fileSize := fileSize, fieldMapping := fieldMapping }
  (c, { s with campaigns := s.campaigns ++ [c] })

/-- `DatabaseStorage.createContacts`: a batch insert; an empty list is a no-op
that performs no store call. -/
def createContacts (s : Store) (batch : List Contact) : Store :=
  if batch = [] then s
  else { s with contacts := s.contacts ++ batch, insertCalls := s.insertCalls ++ [batch] }

/-- Fuel-indexed batching loop: `for (let i = 0; i < n; i += batchSize)` with
`batchSize = 100`, collecting the slices `contactsData.slice(i, i + 100)`.
The fuel is only a structural-recursion device; it is always instantiated with
the list length, which bounds the number of iterations. -/
def chunksAux (fuel : Nat) (l : List (Contact)) : List (List Contact) :=
  match fuel, l with
  | _, [] => []
  | 0, _ :: _ => []
  | fuel + 1, x :: xs => ((x :: xs).take 100) :: chunksAux fuel ((x :: xs).drop 100)

/-- The successive batches of size 100 taken from a contact list. -/
def chunks100 (l : List Contact) : List (List Contact) := chunksAux l.length l

/-- One transformed contact, ready for insertion.  `enc` abstracts
`text => encrypt(JSON.stringify(contactData))` (node crypto plus JSON, both
external to this core). -/
def mkContact (enc : List (StandardField × String) → String) (cid : Nat)
    (fm : StandardField → Option String) (row : List (String × String)) : Contact :=
  { campaignId := cid, fields := recordEntries fm row, encryptedData := enc (recordEntries fm row) }

/-- Failure modes of the import route that precede any store mutation. -/
inductive ImpError where
  | nameRequired
  | conflict
  deriving DecidableEq, Repr

/-- The import orchestrator (POST /api/campaigns, routes.ts lines 249-326),
after multer and JSON decoding: require a non-empty campaign name, validate
the mapping with `fieldMappingSchema`, reject a duplicate campaign name before
any mutation, create the campaign row, transform every parsed row, and insert
the resulting contacts in sequential batches of 100. -/
def importCampaign (enc : List (StandardField × String) → String)
    (campaignName fileName : String) (fileSize : Nat)
    (mappingKvs : List (String × String)) (table : ParsedTable)
    (s : Store) : Except ImpError Campaign × Store :=
  if campaignName = "" then (.error .nameRequired, s)
  else
    let fm := fieldMappingParse mappingKvs
    if s.campaigns.any (fun c => c.name == campaignName) then (.error .conflict, s)
    else
      let created := createCampaign s campaignName fileName table.rows.length fileSize
        (mappingEntries fm)
      let records := table.rows.map (mkContact enc created.1.id fm)
      (.ok created.1, (chunks100 records).foldl createContacts created.2)

/-- `decrypt` of routes.ts: split on ':', take `parts[1]` as the ciphertext
(the IV in `parts[0]` is parsed but never handed to the decipher), and on any
decipher failure return the raw input unchanged.  `D` abstracts the node
decipher update/final on a hex payload, `none` standing for a throw. -/
def decryptModel (D : String → Option String) (encryptedData : String) : String :=
  match (jsSplit ':' encryptedData).get? 1 with
  | none => encryptedData
  | some encrypted =>
    match D encrypted with
    | some plain => plain
    | none => encryptedData

/-- `encrypt` of routes.ts: prepend the hex of a random 16-byte IV, then the
hex ciphertext.  `E` abstracts the cipher (which never sees the IV), `ivHex`
the hex-encoded random bytes. -/
def encryptModel (E : String → String) (ivHex : String) (text : String) : String :=
  ivHex ++ ":" ++ E text

instance {ε α : Type} [DecidableEq ε] [DecidableEq α] : DecidableEq (Except ε α) :=
  fun a b =>
    match a, b with
    | .ok a, .ok b => decidable_of_iff (a = b) (by simp)
    | .error a, .error b => decidable_of_iff (a = b) (by simp)
    | .ok _, .error _ => isFalse (by simp)
    | .error _, .ok _ => isFalse (by simp)

/-- Scanning the headers left to right with overwrite-on-match assigns each
standard field the last header that matches it. -/
theorem detectFields_eq_getLast (headers : List String) (f : StandardField) :
    detectFields headers f = (headers.filter (fieldMatches f)).getLast? := by
  induction headers using List.reverseRecOn with
  | nil => rfl
  | append_singleton hs h ih =>
    simp only [detectFields, List.foldl_append, List.foldl_cons, List.foldl_nil] at *
    by_cases hm : fieldMatches f h
    · simp [hm, List.filter_append]
    · simp [hm, List.filter_append, ih]

/-- C8: For every header list in which more than one header matches a given
standard field's pattern list, `detectFields` assigns to that standard field
the last matching header in the list's iteration order (later matching headers
overwrite earlier assignments). -/
theorem detectFields_last_match_wins (headers : List String) (f : StandardField)
    (h : String) (hlast : (headers.filter (fieldMatches f)).getLast? = some h)
    (hmany : 1 < (headers.filter (fieldMatches f)).length) :
    detectFields headers f = some h := by
  rw [detectFields_eq_getLast, hlast]

/-- C8 witness: both "Phone" and "Other Phone" match `otherPhone`, and the
later header wins. -/
theorem detectFields_last_match_wins_witness :
    ((["Phone", "Other Phone"].filter (fieldMatches .otherPhone)).getLast? =
        some "Other Phone" ∧
      1 < (["Phone", "Other Phone"].filter (fieldMatches .otherPhone)).length) ∧
      detectFields ["Phone", "Other Phone"] .otherPhone = some "Other Phone" :=
  ⟨⟨by decide, by decide⟩,
    detectFields_last_match_wins ["Phone", "Other Phone"] .otherPhone "Other Phone"
      (by decide) (by decide)⟩

/-- C9: every value assigned by `detectFields` is one of the input headers,
verbatim (its key set is the 11-constructor `StandardField` type by
construction). -/
theorem detectFields_values_are_headers (headers : List String) (f : StandardField)
    (h : String) (hf : detectFields headers f = some h) : h ∈ headers := by
  rw [detectFields_eq_getLast] at hf
  exact List.mem_of_mem_filter (List.mem_of_mem_getLast? hf)

/-- C9 witness: the header "E-mail" detected for `email` is literally among the
input headers. -/
theorem detectFields_values_are_headers_witness :
    detectFields ["E-mail"] .email = some "E-mail" ∧ "E-mail" ∈ ["E-mail"] :=
  ⟨by decide, detectFields_values_are_headers ["E-mail"] .email "E-mail" (by decide)⟩

/-- C2 counterexample: on the claimed header list the detector also assigns
`otherPhone` (to "Mobile Phone", whose normalization contains the pattern
"phone"), so the claimed mapping is not the whole result. -/
theorem detectFields_table_cex :
    detectFields ["First Name", "Last Name", "E-mail", "Mobile Phone", "LinkedIn"]
        .otherPhone = some "Mobile Phone" ∧
      detectFields ["First Name", "Last Name", "E-mail", "Mobile Phone", "LinkedIn"]
        .otherPhone ≠ none := by
  constructor <;> decide

/-- C2 amended: the detector returns the five claimed assignments plus
`otherPhone` mapped to "Mobile Phone"; the remaining five standard fields stay
unassigned. -/
theorem detectFields_table_amended (f : StandardField) :
    detectFields ["First Name", "Last Name", "E-mail", "Mobile Phone", "LinkedIn"] f =
      (match f with
       | .firstName => some "First Name"
       | .lastName => some "Last Name"
       | .email => some "E-mail"
       | .mobilePhone => some "Mobile Phone"
       | .otherPhone => some "Mobile Phone"
       | .personLinkedinUrl => some "LinkedIn"
       | _ => none) := by
  cases f <;> decide

/-- C3 counterexample: on `["Company", "Company LinkedIn Url"]` the bare
pattern "company" also matches the later header, which overwrites `company`'s
assignment, so `company` and `companyLinkedinUrl` end up on the same header --
and `company` is not mapped to "Company". -/
theorem detectFields_specificity_cex :
    detectFields ["Company", "Company LinkedIn Url"] .company ≠ some "Company" ∧
      detectFields ["Company", "Company LinkedIn Url"] .company =
        some "Company LinkedIn Url" ∧
      detectFields ["Company", "Company LinkedIn Url"] .companyLinkedinUrl =
        some "Company LinkedIn Url" := by
  refine ⟨?_, ?_, ?_⟩ <;> decide

/-- A successful association-list lookup returns an entry of the list. -/
theorem lookup_mem {l : List (String × String)} {k v : String}
    (h : l.lookup k = some v) : (k, v) ∈ l := by
  induction l with
  | nil => simp [List.lookup] at h
  | cons kv l ih =>
    obtain ⟨a, b⟩ := kv
    rw [List.lookup_cons] at h
    cases hk : k == a
    · rw [hk] at h
      exact List.mem_cons_of_mem _ (ih h)
    · rw [hk] at h
      cases h
      simp only [beq_iff_eq] at hk
      subst hk
      exact List.mem_cons_self _ _

/-- Filtering an association list by a key predicate the looked-up key
satisfies does not change the lookup. -/
theorem lookup_filter {p : String → Bool} {k : String} (hk : p k = true)
    (l : List (String × String)) :
    (l.filter (fun kv => p kv.1)).lookup k = l.lookup k := by
  induction l with
  | nil => rfl
  | cons kv l ih =>
    obtain ⟨a, b⟩ := kv
    by_cases hpa : p a = true
    · simp only [List.filter_cons, hpa, if_true, List.lookup_cons]
      cases k == a
      · exact ih
      · rfl
    · have hne : (k == a) = false := by
        cases h' : k == a
        · rfl
        · simp only [beq_iff_eq] at h'
          subst h'
          exact absurd hk hpa
      simp only [List.filter_cons, hpa, if_false, List.lookup_cons, hne, Bool.false_eq_true,
        ite_false, cond_false]
      exact ih

/-- C3 amended: on `["Company", "Company LinkedIn Url"]` the detector maps
`company`, `companyLinkedinUrl`, `personLinkedinUrl` and `website` all to
"Company LinkedIn Url" (last match wins, and the patterns "company",
"linkedin" and "url" all occur in it); no other field is assigned. -/
theorem detectFields_specificity_amended (f : StandardField) :
    detectFields ["Company", "Company LinkedIn Url"] f =
      (match f with
       | .company => some "Company LinkedIn Url"
       | .companyLinkedinUrl => some "Company LinkedIn Url"
       | .personLinkedinUrl => some "Company LinkedIn Url"
       | .website => some "Company LinkedIn Url"
       | _ => none) := by
  cases f <;> decide

/-- C1 counterexample: the transform's guard is JS truthiness of the mapped
column name, so a mapping that assigns the empty-string column name (which
`fieldMappingSchema` accepts) never populates the field, even though the
mapping assigns that column, the column is not "skip", and the row holds a
non-empty string under it. -/
theorem transformRow_roundtrip_cex :
    (fieldMappingParse [("firstName", "")] .firstName = some "" ∧
      ("" : String) ≠ "skip" ∧
      [(("" : String), "x")].lookup "" = some "x" ∧ ("x" : String) ≠ "") ∧
    transformRow (fieldMappingParse [("firstName", "")]) [("", "x")] .firstName ≠
      some "x" := by
  constructor
  · exact ⟨by decide, by decide, by decide, by decide⟩
  · decide

/-- C1 amended: a transformed record holds `v` at a standard field exactly when
the mapping assigns that field a column name that is non-empty (JS truthiness,
the amendment) and not the "skip" sentinel, and the row holds the non-empty
string `v` under that column; in every other case the field is absent, never
an empty string. -/
theorem transformRow_roundtrip (fm : StandardField → Option String)
    (row : List (String × String)) (f : StandardField) (v : String) :
    transformRow fm row f = some v ↔
      ∃ c, fm f = some c ∧ c ≠ "" ∧ c ≠ "skip" ∧ row.lookup c = some v ∧ v ≠ "" := by
  unfold transformRow
  cases hf : fm f with
  | none => simp
  | some c =>
    simp only [hf, Option.some.injEq]
    by_cases hc : c ≠ "" ∧ c ≠ "skip"
    · rw [if_pos hc]
      cases hl : row.lookup c with
      | none =>
        simp only [hl]
        constructor
        · intro h
          cases h
        · rintro ⟨c', hc', _, _, hl', _⟩
          cases hc'
          rw [hl] at hl'
          cases hl'
      | some w =>
        simp only [hl]
        by_cases hw : w ≠ ""
        · rw [if_pos hw]
          constructor
          · rintro h
            cases h
            exact ⟨c, rfl, hc.1, hc.2, hl, hw⟩
          · rintro ⟨c', hc', _, _, hl', _⟩
            cases hc'
            rw [hl] at hl'
            cases hl'
            rfl
        · rw [if_neg hw]
          push_neg at hw
          subst hw
          constructor
          · intro h
            cases h
          · rintro ⟨c', hc', _, _, hl', hv⟩
            cases hc'
            rw [hl] at hl'
            cases hl'
            exact absurd rfl hv
    · rw [if_neg hc]
      push_neg at hc
      constructor
      · intro h
        cases h
      · rintro ⟨c', hc', hne, hskip, _, _⟩
        cases hc'
        exact absurd (hc hne) hskip

/-- C1 witness: a mapped, non-skip, non-empty cell comes back verbatim from
the transform. -/
theorem transformRow_roundtrip_witness :
    transformRow (fieldMappingParse [("email", "E-mail")]) [("E-mail", "a@b.c")]
        .email = some "a@b.c" :=
  (transformRow_roundtrip (fieldMappingParse [("email", "E-mail")])
      [("E-mail", "a@b.c")] .email "a@b.c").mpr
    ⟨"E-mail", by decide, by decide, by decide, by decide, by decide⟩

/-- C4 counterexample: `fieldMappingSchema.parse` keeps an entry whose value is
the "skip" sentinel (the claim says validation removes it), and it strips an
unknown key silently instead of failing with a ValidationError. -/
theorem fieldMappingParse_cex :
    fieldMappingParse [("firstName", "skip")] .firstName = some "skip" ∧
      fieldMappingParse [("firstName", "skip")] .firstName ≠ none ∧
      fieldMappingParse [("someUnknownKey", "x")] .firstName = none := by
  refine ⟨?_, ?_, ?_⟩ <;> decide

/-- C4 amended: validation by `fieldMappingSchema` keeps every string value of
the 11 standard-field keys verbatim -- "skip", "none" and names outside the
parsed headers are not removed -- and entries under any other key are silently
stripped (the result only depends on the standard-key entries), with no
ValidationError raised for a string-valued mapping object. -/
theorem fieldMappingParse_amended (kvs : List (String × String)) (f : StandardField) :
    fieldMappingParse kvs f =
        fieldMappingParse (kvs.filter (fun kv => kv.1 ∈ standardKeys)) f ∧
      ∀ v, fieldMappingParse kvs f = some v → (fieldKey f, v) ∈ kvs := by
  constructor
  · have hk : decide (fieldKey f ∈ standardKeys) = true := by cases f <;> decide
    exact (@lookup_filter (fun k => decide (k ∈ standardKeys)) (fieldKey f) hk kvs).symm
  · intro v hv
    exact lookup_mem hv

/-- C4 witness: a mapping with one standard entry and one junk entry parses to
the same result as its standard-key restriction, and the kept value is an
entry of the submitted object. -/
theorem fieldMappingParse_amended_witness :
    (fieldMappingParse [("companyLinkedinUrl", "Col A"), ("junk", "z")]
          .companyLinkedinUrl =
        fieldMappingParse
          ([("companyLinkedinUrl", "Col A"), ("junk", "z")].filter
            (fun kv => kv.1 ∈ standardKeys)) .companyLinkedinUrl) ∧
      (("companyLinkedinUrl", "Col A") ∈
        [("companyLinkedinUrl", "Col A"), ("junk", "z")]) :=
  ⟨(fieldMappingParse_amended [("companyLinkedinUrl", "Col A"), ("junk", "z")]
      .companyLinkedinUrl).1,
    (fieldMappingParse_amended [("companyLinkedinUrl", "Col A"), ("junk", "z")]
      .companyLinkedinUrl).2 "Col A" (by decide)⟩

/-- C5: parsing a buffer whose every line is whitespace-only (in particular a
zero-byte buffer) fails with the parse error, while a buffer with exactly one
non-blank line -- the header line, no data rows -- succeeds with an empty row
list, i.e. a row count of 0. -/
theorem parseCSVFile_empty_rejected (csv : String) :
    ((∀ l ∈ jsSplit '\n' csv, jsTrim l = "") →
        parseCSVFile csv = .error "CSV file is empty") ∧
      (∀ first, (jsSplit '\n' csv).filter (fun l => jsTrim l ≠ "") = [first] →
        ∃ headers, parseCSVFile csv = .ok { headers := headers, rows := [] }) := by
  constructor
  · intro h
    have hnil : (jsSplit '\n' csv).filter (fun l => jsTrim l ≠ "") = [] := by
      rw [List.filter_eq_nil_iff]
      intro a ha
      simp [h a ha]
    unfold parseCSVFile
    rw [hnil]
  · intro first hf
    unfold parseCSVFile
    rw [hf]
    exact ⟨_, rfl⟩

/-- C5 witness: the zero-byte buffer and a whitespace-only buffer are rejected,
and the header-only buffer "a,b" parses with zero rows. -/
theorem parseCSVFile_empty_rejected_witness :
    ((∀ l ∈ jsSplit '\n' "", jsTrim l = "") ∧
        parseCSVFile "" = .error "CSV file is empty") ∧
      ((∀ l ∈ jsSplit '\n' " \n\t\n ", jsTrim l = "") ∧
        parseCSVFile " \n\t\n " = .error "CSV file is empty") ∧
      ((jsSplit '\n' "a,b").filter (fun l => jsTrim l ≠ "") = ["a,b"] ∧
        ∃ headers, parseCSVFile "a,b" = .ok { headers := headers, rows := [] }) :=
  ⟨⟨by decide, (parseCSVFile_empty_rejected "").1 (by decide)⟩,
    ⟨by decide, (parseCSVFile_empty_rejected " \n\t\n ").1 (by decide)⟩,
    ⟨by decide, (parseCSVFile_empty_rejected "a,b").2 "a,b" (by decide)⟩⟩

/-- `chunksAux` of the empty list is the empty batch list, whatever the fuel. -/
theorem chunksAux_nil (fuel : Nat) : chunksAux fuel [] = [] := by
  cases fuel <;> rfl

/-- With enough fuel, concatenating the batches gives back the original list:
the batch loop visits every record once, in order. -/
theorem chunksAux_flatten :
    ∀ (fuel : Nat) (l : List Contact), l.length ≤ fuel →
      (chunksAux fuel l).flatten = l := by
  intro fuel
  induction fuel with
  | zero =>
    intro l hl
    rw [List.eq_nil_of_length_eq_zero (Nat.le_zero.mp hl)]
    rfl
  | succ fuel ih =>
    intro l hl
    cases l with
    | nil => rfl
    | cons x xs =>
      simp only [chunksAux, List.flatten_cons]
      rw [ih _ (by simp only [List.length_drop]; simp at hl ⊢; omega)]
      exact List.take_append_drop 100 (x :: xs)

/-- With enough fuel, the batch sizes are `length / 100` full batches of 100
followed by one batch of `length % 100` when that remainder is non-zero. -/
theorem chunksAux_lengths :
    ∀ (fuel : Nat) (l : List Contact), l.length ≤ fuel →
      (chunksAux fuel l).map List.length =
        List.replicate (l.length / 100) 100 ++
          (if l.length % 100 = 0 then [] else [l.length % 100]) := by
  intro fuel
  induction fuel with
  | zero =>
    intro l hl
    rw [List.eq_nil_of_length_eq_zero (Nat.le_zero.mp hl)]
    rfl
  | succ fuel ih =>
    intro l hl
    cases l with
    | nil => rfl
    | cons x xs =>
      simp only [chunksAux, List.map_cons, List.length_take, List.length_drop]
      rw [ih _ (by simp only [List.length_drop]; simp at hl ⊢; omega)]
      simp only [List.length_drop]
      by_cases hn : (x :: xs).length ≤ 100
      · have h0 : (x :: xs).length - 100 = 0 := by omega
        have hmin : min 100 (x :: xs).length = (x :: xs).length := by omega
        rw [h0, hmin]
        rcases Nat.lt_or_ge (x :: xs).length 100 with hlt | hge
        · have hd : (x :: xs).length / 100 = 0 := Nat.div_eq_of_lt hlt
          have hm : (x :: xs).length % 100 = (x :: xs).length := Nat.mod_eq_of_lt hlt
          have hne : (x :: xs).length ≠ 0 := by simp
          rw [hd, hm]
          simp [hne]
        · have h100 : (x :: xs).length = 100 := by omega
          rw [h100]
          rfl
      · have hmin : min 100 (x :: xs).length = 100 := by omega
        have hd : (x :: xs).length / 100 = ((x :: xs).length - 100) / 100 + 1 := by omega
        have hm : (x :: xs).length % 100 = ((x :: xs).length - 100) % 100 := by omega
        rw [hmin, hd, hm, List.replicate_succ, List.cons_append]

/-- The batch loop never passes an empty batch to the store. -/
theorem chunksAux_no_nil :
    ∀ (fuel : Nat) (l : List Contact), [] ∉ chunksAux fuel l := by
  intro fuel
  induction fuel with
  | zero =>
    intro l
    cases l <;> simp [chunksAux]
  | succ fuel ih =>
    intro l
    cases l with
    | nil => simp [chunksAux]
    | cons x xs =>
      simp only [chunksAux, List.mem_cons, not_or]
      exact ⟨by simp [List.take_cons], ih _⟩

/-- Batch concatenation returns the records unchanged. -/
theorem chunks100_flatten (l : List Contact) : (chunks100 l).flatten = l :=
  chunksAux_flatten _ _ le_rfl

/-- Batch sizes of `chunks100`. -/
theorem chunks100_lengths (l : List Contact) :
    (chunks100 l).map List.length =
      List.replicate (l.length / 100) 100 ++
        (if l.length % 100 = 0 then [] else [l.length % 100]) :=
  chunksAux_lengths _ _ le_rfl

/-- `chunks100` never produces an empty batch. -/
theorem chunks100_no_nil (l : List Contact) : [] ∉ chunks100 l :=
  chunksAux_no_nil _ _

/-- Folding `createContacts` over batch lists with no empty batch appends the
records to the contact table and logs exactly those batches, in order, leaving
the campaign table alone. -/
theorem foldl_createContacts (bs : List (List Contact)) :
    ∀ s : Store, [] ∉ bs →
      bs.foldl createContacts s =
        { campaigns := s.campaigns, contacts := s.contacts ++ bs.flatten,
          insertCalls := s.insertCalls ++ bs } := by
  induction bs with
  | nil => intro s _; simp
  | cons b bs ih =>
    intro s h
    have hb : b ≠ [] := by
      intro hb
      exact h (hb ▸ List.mem_cons_self _ _)
    simp only [List.foldl_cons]
    rw [ih _ (fun hm => h (List.mem_cons_of_mem _ hm))]
    unfold createContacts
    rw [if_neg hb]
    simp [List.append_assoc]

/-- C6: an import whose campaign name matches an existing campaign's name
exactly (case-sensitive) fails with the conflict error and leaves the store
untouched: no campaign row, no contact rows, no batch-insert calls.  The
hypothesis that stored names are non-empty reflects that the import path
refuses empty names, so no existing campaign carries one. -/
theorem importCampaign_duplicate_name (enc : List (StandardField × String) → String)
    (campaignName fileName : String) (fileSize : Nat)
    (mappingKvs : List (String × String)) (table : ParsedTable) (s : Store)
    (hinv : ∀ c ∈ s.campaigns, c.name ≠ "")
    (hdup : ∃ c ∈ s.campaigns, c.name = campaignName) :
    importCampaign enc campaignName fileName fileSize mappingKvs table s =
      (.error .conflict, s) := by
  obtain ⟨c, hc, hcname⟩ := hdup
  have hname : campaignName ≠ "" := hcname ▸ hinv c hc
  unfold importCampaign
  rw [if_neg hname]
  have hany : s.campaigns.any (fun c => c.name == campaignName) = true := by
    rw [List.any_eq_true]
    exact ⟨c, hc, by simp [hcname]⟩
  rw [if_pos hany]

/-- C6 witness: re-importing the name "Q1 Leads" against a store that already
holds a campaign of that name is rejected with the store unchanged. -/
theorem importCampaign_duplicate_name_witness :
    ((∀ c ∈ (Store.mk
          [⟨1, "Q1 Leads", "f.csv", 0, 0, []⟩] [] []).campaigns, c.name ≠ "") ∧
      (∃ c ∈ (Store.mk
          [⟨1, "Q1 Leads", "f.csv", 0, 0, []⟩] [] []).campaigns,
        c.name = "Q1 Leads")) ∧
      importCampaign (fun _ => "") "Q1 Leads" "g.csv" 5 [] ⟨[], []⟩
          (Store.mk [⟨1, "Q1 Leads", "f.csv", 0, 0, []⟩] [] []) =
        (.error .conflict, Store.mk [⟨1, "Q1 Leads", "f.csv", 0, 0, []⟩] [] []) :=
  ⟨⟨by decide, by decide⟩,
    importCampaign_duplicate_name (fun _ => "") "Q1 Leads" "g.csv" 5 [] ⟨[], []⟩
      (Store.mk [⟨1, "Q1 Leads", "f.csv", 0, 0, []⟩] [] []) (by decide) (by decide)⟩

/-- C7: a successful import logs exactly the 100-element batches of the
transformed records, in order; batch concatenation gives back the records in
original row order; the batch sizes are `n / 100` hundreds followed by
`n % 100` when non-zero; and 250 records give exactly the sizes
[100, 100, 50]. -/
theorem importCampaign_batches (enc : List (StandardField × String) → String)
    (campaignName fileName : String) (fileSize : Nat)
    (mappingKvs : List (String × String)) (table : ParsedTable) (s : Store)
    (hname : campaignName ≠ "")
    (hnodup : ∀ c ∈ s.campaigns, c.name ≠ campaignName) :
    ((importCampaign enc campaignName fileName fileSize mappingKvs table s).2.insertCalls
        = s.insertCalls ++
          chunks100 (table.rows.map
            (mkContact enc (s.campaigns.length + 1) (fieldMappingParse mappingKvs)))) ∧
      (∀ recs : List Contact, (chunks100 recs).flatten = recs) ∧
      (∀ recs : List Contact,
        (chunks100 recs).map List.length =
          List.replicate (recs.length / 100) 100 ++
            (if recs.length % 100 = 0 then [] else [recs.length % 100])) ∧
      (∀ recs : List Contact, recs.length = 250 →
        (chunks100 recs).map List.length = [100, 100, 50]) := by
  refine ⟨?_, chunks100_flatten, chunks100_lengths, ?_⟩
  · unfold importCampaign
    rw [if_neg hname]
    have hany : ¬(s.campaigns.any (fun c => c.name == campaignName) = true) := by
      rw [List.any_eq_true]
      rintro ⟨c, hc, he⟩
      rw [beq_iff_eq] at he
      exact hnodup c hc he
    rw [if_neg hany]
    simp only
    rw [foldl_createContacts _ _ (chunks100_no_nil _)]
    rfl
  · intro recs h250
    rw [chunks100_lengths recs, h250]
    rfl

/-- C7 witness: importing 250 one-cell rows into an empty store issues the
batches of the 250 transformed records, whose sizes are [100, 100, 50] and
whose concatenation is the records in order. -/
theorem importCampaign_batches_witness :
    (("Big" : String) ≠ "" ∧
        (∀ c ∈ (Store.mk [] [] []).campaigns, c.name ≠ "Big")) ∧
      ((importCampaign (fun _ => "") "Big" "f.csv" 1 []
            ⟨["a"], List.replicate 250 [("a", "b")]⟩ (Store.mk [] [] [])).2.insertCalls
          = (Store.mk [] [] []).insertCalls ++
            chunks100 ((List.replicate 250 [("a", "b")]).map
              (mkContact (fun _ => "") ((Store.mk [] [] []).campaigns.length + 1)
                (fieldMappingParse [])))) ∧
      (chunks100 ((List.replicate 250 [("a", "b")]).map
          (mkContact (fun _ => "") 1 (fieldMappingParse [])))).map List.length =
        [100, 100, 50] := by
  have h := importCampaign_batches (fun _ => "") "Big" "f.csv" 1 []
    ⟨["a"], List.replicate 250 [("a", "b")]⟩ (Store.mk [] [] [])
    (by decide) (by decide)
  exact ⟨⟨by decide, by decide⟩, h.1,
    h.2.2.2 ((List.replicate 250 [("a", "b")]).map
      (mkContact (fun _ => "") 1 (fieldMappingParse [])))
      (by rw [List.length_map, List.length_replicate])⟩

/-- Splitting a list free of the separator yields the single whole piece. -/
theorem splitChar_not_mem {sep : Char} {l : List Char} (h : sep ∉ l) :
    splitChar sep l = [l] := by
  induction l with
  | nil => rfl
  | cons c cs ih =>
    have hc : ¬(c = sep) := fun e => h (e ▸ List.mem_cons_self _ _)
    simp only [splitChar, if_neg hc]
    rw [ih (fun hm => h (List.mem_cons_of_mem _ hm))]

/-- Splitting around the first separator occurrence detaches the
separator-free piece before it. -/
theorem splitChar_append {sep : Char} :
    ∀ (l₁ l₂ : List Char), sep ∉ l₁ →
      splitChar sep (l₁ ++ sep :: l₂) = l₁ :: splitChar sep l₂ := by
  intro l₁
  induction l₁ with
  | nil =>
    intro l₂ _
    simp [splitChar]
  | cons c cs ih =>
    intro l₂ h
    have hc : ¬(c = sep) := fun e => h (e ▸ List.mem_cons_self _ _)
    simp only [List.cons_append, splitChar, if_neg hc, List.append_eq]
    rw [ih l₂ (fun hm => h (List.mem_cons_of_mem _ hm))]

/-- JS `(i + ":" + c).split(':')` is `[i, c]` when neither side contains a
colon (true of hex strings). -/
theorem jsSplit_colon (i c : String) (hi : ':' ∉ i.data) (hc : ':' ∉ c.data) :
    jsSplit ':' (i ++ ":" ++ c) = [i, c] := by
  unfold jsSplit
  have hdata : (i ++ ":" ++ c).data = i.data ++ ':' :: c.data := by
    have h1 : (i ++ ":" ++ c).data = (i.data ++ [':']) ++ c.data := rfl
    rw [h1, List.append_assoc]
    rfl
  rw [hdata, splitChar_append _ _ hi, splitChar_not_mem hc]
  rfl

/-- C10 counterexample: when deciphering fails (as it always does for the
reference `aes-256-gcm` decipher used without an auth tag, and for any
non-decodable payload), `decrypt` returns its whole raw input, so the result
does depend on the IV prefix. -/
theorem decrypt_iv_ignored_cex :
    decryptModel (fun _ => none) ("aa" ++ ":" ++ "cc") ≠
      decryptModel (fun _ => none) ("bb" ++ ":" ++ "cc") := by decide

/-- C10 amended: the decipher never sees the IV prefix, so whenever
deciphering the payload succeeds the result is the same for any two hex
prefixes; when it fails, the raw input -- prefix included -- is returned, and
the results differ; and two encryptions of the same plaintext differ only in
the prepended IV hex, so decrypting them gives the same result once the
decipher succeeds on the shared payload. -/
theorem decrypt_iv_ignored (D : String → Option String) (E : String → String)
    (i1 i2 c t : String) (h1 : ':' ∉ i1.data) (h2 : ':' ∉ i2.data)
    (hc : ':' ∉ c.data) (hE : ':' ∉ (E t).data) :
    (∀ p, D c = some p →
        decryptModel D (i1 ++ ":" ++ c) = p ∧ decryptModel D (i2 ++ ":" ++ c) = p) ∧
      (D c = none → decryptModel D (i1 ++ ":" ++ c) = i1 ++ ":" ++ c) ∧
      (∀ p, D (E t) = some p →
        decryptModel D (encryptModel E i1 t) = decryptModel D (encryptModel E i2 t)) := by
  refine ⟨fun p hp => ?_, fun hn => ?_, fun p hp => ?_⟩
  · constructor
    · unfold decryptModel
      rw [jsSplit_colon i1 c h1 hc]
      simp [hp]
    · unfold decryptModel
      rw [jsSplit_colon i2 c h2 hc]
      simp [hp]
  · unfold decryptModel
    rw [jsSplit_colon i1 c h1 hc]
    simp [hn]
  · unfold decryptModel encryptModel
    rw [jsSplit_colon i1 (E t) h1 hE, jsSplit_colon i2 (E t) h2 hE]
    simp [hp]

/-- C10 witness: with a decipher that decodes the payload "cc" to "PLAIN",
decrypting under the two distinct IV prefixes "aa" and "bb" gives the same
plaintext. -/
theorem decrypt_iv_ignored_witness :
    ((fun s => if s = "cc" then some "PLAIN" else none : String → Option String) "cc" =
        some "PLAIN") ∧
      decryptModel (fun s => if s = "cc" then some "PLAIN" else none)
          ("aa" ++ ":" ++ "cc") = "PLAIN" ∧
        decryptModel (fun s => if s = "cc" then some "PLAIN" else none)
          ("bb" ++ ":" ++ "cc") = "PLAIN" :=
  ⟨by decide,
    (decrypt_iv_ignored (fun s => if s = "cc" then some "PLAIN" else none)
        (fun _ => "cc") "aa" "bb" "cc" "msg"
        (by decide) (by decide) (by decide) (by decide)).1 "PLAIN" (by decide)⟩
